import Mathlib

/-!
Verification of the Sink collaborative-table engine.

This file is a shallow embedding of the canonical model of the source
(the raw-map `Table` with `order`/`computeRowMap`, the `TableUpdate`
class hierarchy used by `server.ts`, the `ShiftContext`, the `Server`
processing loop, and the `Client` state machine), together with
theorems checking the specification claims against it.

Modelling conventions:
* JavaScript `Map`s become association lists in insertion order
  (`Map.set` updates in place or appends; `Map.delete` removes).
* JavaScript numbers used as cell values are modelled as integers
  (`Int`); `parseFloat` is restricted to the integer syntax (optional
  sign followed by a digit prefix).  No claim depends on fractional
  values, NaN, or infinities.
* A JavaScript exception (`throw`, or reading a property of
  `undefined`) is modelled as `none` of an `Option` result.
-/

namespace Sink

/-- Cell types, from `type.ts` (`Type.Text`, `Type.Number`). -/
inductive Ty where
  | text
  | number
deriving DecidableEq

/-- Cell values: JavaScript strings and numbers (numbers as integers). -/
inductive Value where
  | str : String → Value
  | num : Int → Value
deriving DecidableEq

/-- One character of JSON string escaping, as `JSON.stringify` does it. -/
def jsonEscapeChar (c : Char) : String :=
  if c = '"' then "\\\""
  else if c = '\\' then "\\\\"
  else if c = '\n' then "\\n"
  else if c = '\t' then "\\t"
  else if c = '\r' then "\\r"
  else if c.toNat < 32 then "\\u00" ++
    (String.singleton (Nat.digitChar (c.toNat / 16))) ++
    (String.singleton (Nat.digitChar (c.toNat % 16)))
  else String.singleton c

/-- JSON string escaping. -/
def jsonEscape (s : String) : String :=
  String.join (s.toList.map jsonEscapeChar)

/-- A JSON string literal: quotes around the escaped text. -/
def jsonStr (s : String) : String :=
  "\"" ++ jsonEscape s ++ "\""

/-- `JSON.stringify` of a primitive cell value: strings are quoted and
escaped, numbers are rendered in decimal. -/
def Value.render : Value → String
  | .str s => jsonStr s
  | .num n => toString n

/-- The integer fragment of JavaScript `parseFloat` on a string: skip
leading whitespace, read an optional sign and then the longest digit
prefix; no digits means NaN (`none`). -/
def parseFloatStr (s : String) : Option Int :=
  let cs := s.toList.dropWhile (fun c => c = ' ' ∨ c = '\t' ∨ c = '\n' ∨ c = '\r')
  let signAndRest : Bool × List Char :=
    match cs with
    | '-' :: r => (true, r)
    | '+' :: r => (false, r)
    | _ => (false, cs)
  let ds := signAndRest.2.takeWhile Char.isDigit
  if ds.isEmpty then none
  else
    let n : Nat := ds.foldl (fun a c => a * 10 + (c.toNat - 48)) 0
    some (if signAndRest.1 then -(n : Int) else (n : Int))

/-- `parseFloat` applied to a cell value: a number round-trips through
its string form (identity for integers); a string is parsed. -/
def parseFloatV : Value → Option Int
  | .num n => some n
  | .str s => parseFloatStr s

/-- `Type.coerce` from `type.ts`: `undefined` stays `undefined`; `Text`
JSON-stringifies the value; `Number` parses it as a float and yields
`undefined` when the result is NaN. -/
def Ty.coerce (t : Ty) : Option Value → Option Value
  | none => none
  | some v =>
    match t with
    | .text => some (.str (Value.render v))
    | .number => (parseFloatV v).map Value.num

/-- `Type.toString` from `type.ts`. -/
def Ty.toStr : Ty → String
  | .text => "text"
  | .number => "number"

/-- A JavaScript `Map` keyed by strings, in insertion order. -/
abbrev AList (α : Type) := List (String × α)

/-- `Map.get`: the value at the first matching key, if any. -/
def lookupA {α : Type} : AList α → String → Option α
  | [], _ => none
  | (k, v) :: rest, q => if k = q then some v else lookupA rest q

/-- `Map.has`. -/
def hasA {α : Type} (m : AList α) (k : String) : Bool :=
  (lookupA m k).isSome

/-- `Map.set`: update in place if the key exists, else append. -/
def setA {α : Type} : AList α → String → α → AList α
  | [], k, v => [(k, v)]
  | (k0, v0) :: rest, k, v =>
    if k0 = k then (k0, v) :: rest else (k0, v0) :: setA rest k v

/-- `Map.delete`: remove the entry with the key, if any. -/
def eraseA {α : Type} : AList α → String → AList α
  | [], _ => []
  | (k0, v0) :: rest, k =>
    if k0 = k then rest else (k0, v0) :: eraseA rest k

/-- `Map.forEach` with `set` on each value: rewrite every value in
place, keeping keys and order. -/
def mapValuesA {α β : Type} (f : α → β) (m : AList α) : AList β :=
  m.map (fun p => (p.1, f p.2))

/-- `Array.splice(i, 1)`: drop the element at position `i` (no effect
when `i` is out of range, as in JavaScript). -/
def spliceRemove {α : Type} (l : List α) (i : Nat) : List α :=
  l.take i ++ l.drop (i + 1)

/-- `Array.splice(i, 0, x)`: insert `x` at position `i`, with the
JavaScript clamping rules (a negative `i` counts from the end and is
clamped to 0; an `i` past the end is clamped to the length). -/
def spliceInsert {α : Type} (l : List α) (i : Int) (x : α) : List α :=
  let n : Int := l.length
  let s : Nat := (if i < 0 then max (n + i) 0 else min i n).toNat
  l.take s ++ [x] ++ l.drop s

/-- The canonical `Table` of `table.ts`: cells as a row-to-column map
of maps, a column-to-type map in insertion order, a derived row-to-
index map, and the authoritative row order. -/
structure Table where
  cells : AList (AList Value)
  columns : AList Ty
  rows : AList Nat
  order : List String
deriving DecidableEq

/-- The empty table (the `Table` constructor). -/
def Table.empty : Table := ⟨[], [], [], []⟩

/-- `Table.computeRowMap`: clear `rows` and re-insert every row ID of
`order` with its index. -/
def Table.computeRowMap (t : Table) : Table :=
  { t with rows := t.order.enum.foldl (fun m p => setA m p.2 p.1) [] }

/-- One element of the serialized `columns` array (`ColumnOutput`). -/
def serColumnOutput (columnID : String) (ty : Ty) : String :=
  "\x7b\"id\":" ++ jsonStr columnID ++ ",\"type\":" ++ jsonStr ty.toStr ++ "\x7d"

/-- The serialized `cellValuesByColumnId` object of one row: exactly
the assigned cells, in map insertion order. -/
def serCellObject (row : AList Value) : String :=
  "\x7b" ++ String.intercalate ","
    (row.map (fun p => jsonStr p.1 ++ ":" ++ p.2.render)) ++ "\x7d"

/-- One element of the serialized `rows` array (`RowOutput`). -/
def serRowOutput (rowID : String) (row : AList Value) : String :=
  "\x7b\"id\":" ++ jsonStr rowID ++ ",\"cellValuesByColumnId\":" ++
    serCellObject row ++ "\x7d"

/-- The serialized `rows` array entries, following `order`.  Reading a
row ID that has no `cells` entry throws in the source (`Array.from` of
`undefined`), modelled as `none`. -/
def rowsJSON (cells : AList (AList Value)) : List String → Option (List String)
  | [] => some []
  | rowID :: rest =>
    match lookupA cells rowID with
    | none => none
    | some row =>
      match rowsJSON cells rest with
      | none => none
      | some rs => some (serRowOutput rowID row :: rs)

/-- `Table.serialize` from `table.ts` with `spaces = 0`: the compact
`JSON.stringify` of the `columns` and `rows` arrays. -/
def Table.serialize (t : Table) : Option String :=
  match rowsJSON t.cells t.order with
  | none => none
  | some rows =>
    some ("\x7b\"columns\":[" ++
      String.intercalate "," (t.columns.map (fun p => serColumnOutput p.1 p.2)) ++
      "],\"rows\":[" ++ String.intercalate "," rows ++ "]\x7d")

/-- The kind of an index shift, from `shiftContext.ts`. -/
inductive ShiftType where
  | insert
  | delete
deriving DecidableEq

/-- One recorded shift (`ShiftRecord`). -/
structure ShiftRecord where
  type : ShiftType
  index : Int
deriving DecidableEq

/-- A `ShiftContext` is its list of records, in the order appended. -/
abbrev ShiftContext := List ShiftRecord

/-- `ShiftContext.insertAt`. -/
def ShiftContext.insertAt (ctx : ShiftContext) (index : Int) : ShiftContext :=
  ctx ++ [⟨ShiftType.insert, index⟩]

/-- `ShiftContext.deleteAt`. -/
def ShiftContext.deleteAt (ctx : ShiftContext) (index : Int) : ShiftContext :=
  ctx ++ [⟨ShiftType.delete, index⟩]

/-- `ShiftContext.move`: a delete at `start` then an insert at `e`. -/
def ShiftContext.move (ctx : ShiftContext) (start e : Int) : ShiftContext :=
  ctx ++ [⟨ShiftType.delete, start⟩, ⟨ShiftType.insert, e⟩]

/-- `ShiftContext.transform`, exactly as the source executes: a fold
over the records.  For `Insert(i)`: increment when `index ≥ i`.  For
`Delete(i)` with `index = i` the source callback does `return -1`, but
that only returns from the `forEach` callback and the value is
discarded, so the fold continues with `index` unchanged; for
`index > i` it decrements.  The final accumulator is returned — the
method never reports the documented `-1` tombstone. -/
def ShiftContext.transform (ctx : ShiftContext) (index : Int) : Int :=
  ctx.foldl
    (fun idx sh =>
      match sh.type with
      | ShiftType.insert => if idx ≥ sh.index then idx + 1 else idx
      | ShiftType.delete =>
        if idx = sh.index then idx
        else if idx > sh.index then idx - 1 else idx)
    index

/-- The update taxonomy of `tableUpdate.ts` (the eight subclasses of
`TableUpdate`).  `destroyRow` carries its `index` bookkeeping field and
`moveRow` its `start` field, both `-1` until set by `apply`. -/
inductive TableUpdate where
  | createRow (rowID : String)
  | destroyRow (rowID : String) (index : Int)
  | moveRow (rowID : String) (targetIndex : Int) (start : Int)
  | createColumn (columnID : String) (columnType : Ty)
  | destroyColumn (columnID : String)
  | updateColumnType (columnID : String) (columnType : Ty)
  | updateTextCellValue (rowID : String) (columnID : String) (cellValue : String)
  | updateNumberCellValue (rowID : String) (columnID : String) (cellValue : Int)
deriving DecidableEq

/-- `TableUpdate.needsTransform`: the base class returns `false` and no
subclass overrides it — in particular `MoveRow` does not — so this is
constantly `false` in the source. -/
def TableUpdate.needsTransform (_ : TableUpdate) : Bool :=
  false

/-- `TableUpdate.transform`: a no-op on the base class; `MoveRow`
overrides it to rewrite `targetIndex` through the context. -/
def TableUpdate.transform (u : TableUpdate) (ctx : ShiftContext) : TableUpdate :=
  match u with
  | .moveRow rowID targetIndex start =>
    .moveRow rowID (ShiftContext.transform ctx targetIndex) start
  | u => u

/-- `TableUpdate.shift`: a no-op on the base class; `DestroyRow` and
`MoveRow` override it, throwing (`none`) when `apply` has not yet set
their bookkeeping index. -/
def TableUpdate.shift (u : TableUpdate) (ctx : ShiftContext) : Option ShiftContext :=
  match u with
  | .destroyRow _ index =>
    if index = -1 then none else some (ctx.deleteAt index)
  | .moveRow _ targetIndex start =>
    if start = -1 then none else some (ctx.move start targetIndex)
  | _ => some ctx

/-- `TableUpdate.apply` for each of the eight variants, returning the
success flag, the table as the call leaves it, and the update with its
post-apply bookkeeping.  `none` models a JavaScript crash: setting a
cell of a missing row map, or (for `MoveRow`) a `rows` index outside
`order`, where the source would splice nothing and insert an
`undefined` row ID, corrupting the table. -/
def TableUpdate.apply (u : TableUpdate) (t : Table) : Option (Bool × Table × TableUpdate) :=
  match u with
  | .createRow rowID =>
    if hasA t.rows rowID then some (false, t, u)
    else
      some (true,
        Table.computeRowMap
          { t with cells := setA t.cells rowID [], order := t.order ++ [rowID] },
        u)
  | .destroyRow rowID _ =>
    match lookupA t.rows rowID with
    | none => some (false, t, u)
    | some index =>
      some (true,
        Table.computeRowMap
          { t with cells := eraseA t.cells rowID,
                   order := spliceRemove t.order index },
        .destroyRow rowID (index : Int))
  | .moveRow rowID targetIndex _ =>
    match lookupA t.rows rowID with
    | none => some (false, t, u)
    | some start =>
      match t.order.get? start with
      | none => none
      | some removed =>
        some (true,
          Table.computeRowMap
            { t with order := spliceInsert (spliceRemove t.order start) targetIndex removed },
          .moveRow rowID targetIndex (start : Int))
  | .createColumn columnID columnType =>
    if hasA t.columns columnID then some (false, t, u)
    else some (true, { t with columns := setA t.columns columnID columnType }, u)
  | .destroyColumn columnID =>
    if hasA t.columns columnID then
      some (true,
        { t with columns := eraseA t.columns columnID,
                 cells := mapValuesA (fun row => eraseA row columnID) t.cells },
        u)
    else some (false, t, u)
  | .updateColumnType columnID columnType =>
    if hasA t.columns columnID then
      if t.cells.all (fun rc => (columnType.coerce (lookupA rc.2 columnID)).isSome) then
        some (true,
          { t with columns := setA t.columns columnID columnType,
                   cells := mapValuesA
                     (fun row =>
                       match columnType.coerce (lookupA row columnID) with
                       | some v => setA row columnID v
                       | none => row)
                     t.cells },
          u)
      else some (false, t, u)
    else some (false, t, u)
  | .updateTextCellValue rowID columnID cellValue =>
    match lookupA t.columns columnID with
    | none => some (false, t, u)
    | some ty =>
      match lookupA t.rows rowID with
      | none => some (false, t, u)
      | some _ =>
        if ty = Ty.text then
          match lookupA t.cells rowID with
          | none => none
          | some row =>
            some (true,
              { t with cells := setA t.cells rowID (setA row columnID (.str cellValue)) },
              u)
        else some (false, t, u)
  | .updateNumberCellValue rowID columnID cellValue =>
    match lookupA t.columns columnID with
    | none => some (false, t, u)
    | some ty =>
      match lookupA t.rows rowID with
      | none => some (false, t, u)
      | some _ =>
        if ty = Ty.number then
          match lookupA t.cells rowID with
          | none => none
          | some row =>
            some (true,
              { t with cells := setA t.cells rowID (setA row columnID (.num cellValue)) },
              u)
        else some (false, t, u)

/-- A `Message` from `message.ts`: baseline version, group ID, update,
and message UUID. -/
structure Msg where
  version : Nat
  groupID : String
  update : TableUpdate
  UUID : String
deriving DecidableEq

/-- A broadcast from the server to its connected clients: either the
materialized message or a rejection notice. -/
inductive Event where
  | accepted (m : Msg)
  | rejected (mid : String) (gid : String)
deriving DecidableEq

/-- The server state of `server.ts`: authoritative table, accepted
history (`history[v]` at list position `v - 1`; slot 0 unused), the
failed-group set, and the current version. -/
structure ServerState where
  table : Table
  history : List Msg
  failed : List String
  version : Nat
deriving DecidableEq

/-- The initial server state. -/
def serverInit : ServerState := ⟨Table.empty, [], [], 0⟩

/-- `this.history[i]`: `none` models the `undefined` read at index 0
(the JavaScript array has a hole there). -/
def histGet (s : ServerState) (i : Nat) : Option Msg :=
  if i = 0 then none else s.history.get? (i - 1)

/-- The shift-accumulation loop of `Server.process`: fold
`history[i].update.shift` into a fresh context for
`i = message.version` up to `this.version` inclusive.  Reading a
missing history entry throws (`none`). -/
def accumShifts (s : ServerState) (fromV : Nat) : Option ShiftContext :=
  (List.range' fromV (s.version + 1 - fromV)).foldlM
    (fun ctx i =>
      match histGet s i with
      | none => none
      | some m => m.update.shift ctx)
    ([] : ShiftContext)

/-- The transform step of `Server.process`: when the update reports
`needsTransform`, accumulate the shifts and rewrite the update;
otherwise pass it through. -/
def transformPhase (s : ServerState) (m : Msg) : Option TableUpdate :=
  if m.update.needsTransform then
    (accumShifts s m.version).map (fun ctx => m.update.transform ctx)
  else some m.update

/-- `Set.add` on the failed-group set. -/
def addFailed (l : List String) (g : String) : List String :=
  if g ∈ l then l else l ++ [g]

/-- One iteration of the `Server.process` loop on a dequeued message:
drop it silently if its group already failed; otherwise transform (if
requested), apply, and either accept (bump the version, store the
message in history with its new version, broadcast `accepted`) or
reject (poison the group, broadcast `rejected`). -/
def processOne (s : ServerState) (m : Msg) : Option (ServerState × List Event) :=
  if m.groupID ∈ s.failed then some (s, [])
  else
    match transformPhase s m with
    | none => none
    | some u =>
      match u.apply s.table with
      | none => none
      | some (success, table1, u1) =>
        if success then
          let m1 : Msg := { m with version := s.version + 1, update := u1 }
          some ({ s with table := table1, version := s.version + 1,
                         history := s.history ++ [m1] },
                [Event.accepted m1])
        else
          some ({ s with table := table1, failed := addFailed s.failed m.groupID },
                [Event.rejected m.UUID m.groupID])

/-- Draining the pending queue: process the messages in FIFO order,
concatenating the broadcasts. -/
def processMsgs (s : ServerState) : List Msg → Option (ServerState × List Event)
  | [] => some (s, [])
  | m :: rest =>
    match processOne s m with
    | none => none
    | some (s1, evs) =>
      match processMsgs s1 rest with
      | none => none
      | some (s2, evs2) => some (s2, evs ++ evs2)

/-- The client state of `client.ts`: local mirror, outbox, current
group ID, version, and online flag.  `seed` supplies the fresh UUIDs
that `UUIDV4()` produces on group rotation. -/
structure ClientState where
  table : Table
  outbox : List Msg
  groupID : String
  seed : Nat
  version : Nat
  online : Bool
deriving DecidableEq

/-- A fresh group UUID. -/
def freshUUID (n : Nat) : String :=
  "uuid-" ++ toString n

/-- `Client.sync`: rotate the group ID when the incoming version is
strictly newer, then adopt the version and the table. -/
def clientSync (c : ClientState) (t : Table) (v : Nat) : ClientState :=
  let c1 := if v > c.version then
    { c with groupID := freshUUID c.seed, seed := c.seed + 1 } else c
  { c1 with version := v, table := t }

/-- `Client.comeOnline`: `server.connected(this)` synchronously calls
back `sync` with the server table and version; the outbox messages are
handed to the server and the outbox cleared; the online flag is set. -/
def clientComeOnline (c : ClientState) (t : Table) (v : Nat) : ClientState :=
  { clientSync c t v with outbox := [], online := true }

/-- The `Client` constructor: empty mirror, empty outbox, fresh group
ID, version 0, the given online flag; when online, immediately come
online (receiving the server sync). -/
def clientInit (serverTable : Table) (serverVersion : Nat) (onlineFlag : Bool) :
    ClientState :=
  let c : ClientState := ⟨Table.empty, [], freshUUID 0, 1, 0, onlineFlag⟩
  if onlineFlag then clientComeOnline c serverTable serverVersion else c

/-- `Client.rejected` — modelled from the spec: the handler is invoked
by the server reject broadcast but is not defined on the `Client`
class in the source; the spec prescribes that the client need not act
on its mirror and mandates no state change, i.e. a no-op. -/
def clientRejected (c : ClientState) (_mid _gid : String) : ClientState :=
  c

/-- `Server.reject`: deliver the failure notice to every connected
client. -/
def rejectBroadcast (clients : List ClientState) (mid gid : String) :
    List ClientState :=
  clients.map (fun c => clientRejected c mid gid)

/-- The external events that mutate a client: the two online-state
methods, issuing an edit (which stamps the current version and group
ID and either sends or enqueues), and the three server callbacks.  The
sync delivered during `comeOnline`, and any `accepted` broadcasts that
the drain triggers, are modelled as the corresponding operations. -/
inductive ClientOp where
  | comeOnlineOp (t : Table) (v : Nat)
  | goOfflineOp
  | issueOp (u : TableUpdate) (uuid : String)
  | syncOp (t : Table) (v : Nat)
  | acceptedOp (m : Msg)
  | rejectedOp (mid : String) (gid : String)

/-- The client transition function.  `accepted` throws on an
out-of-order version (`none`); applying the accepted update to the
mirror may itself throw. -/
def clientStep (c : ClientState) : ClientOp → Option ClientState
  | .comeOnlineOp t v => some (clientComeOnline c t v)
  | .goOfflineOp => some { c with online := false }
  | .issueOp u uuid =>
    let m : Msg := ⟨c.version, c.groupID, u, uuid⟩
    some (if c.online then c else { c with outbox := c.outbox ++ [m] })
  | .syncOp t v => some (clientSync c t v)
  | .acceptedOp m =>
    if m.version = c.version + 1 then
      match m.update.apply c.table with
      | none => none
      | some (_, t1, _) =>
        some { c with table := t1, version := m.version,
                      groupID := freshUUID c.seed, seed := c.seed + 1 }
    else none
  | .rejectedOp mid gid => some (clientRejected c mid gid)

/-- A run of client operations from a starting state. -/
def runClient (c : ClientState) : List ClientOp → Option ClientState
  | [] => some c
  | op :: rest =>
    match clientStep c op with
    | none => none
    | some c1 => runClient c1 rest

/-- `Client.getData`: when online, serialize the mirror; when offline,
apply every outbox update to a copy of the mirror in order (ignoring
each update's success flag) and serialize that. -/
def getData (c : ClientState) : Option String :=
  if c.online then c.table.serialize
  else
    match c.outbox.foldlM
      (fun t m => (m.update.apply t).map (fun r => r.2.1)) c.table with
    | none => none
    | some t => t.serialize

/-! ### Association-list lemmas -/

/-- The keys of an association list, in order. -/
def keysA {α : Type} (m : AList α) : List String :=
  m.map Prod.fst

@[simp] theorem keysA_nil {α : Type} : keysA ([] : AList α) = [] := rfl

@[simp] theorem keysA_cons {α : Type} (k : String) (v : α) (tl : AList α) :
    keysA ((k, v) :: tl) = k :: keysA tl := rfl

theorem lookupA_setA {α : Type} (m : AList α) (k q : String) (v : α) :
    lookupA (setA m k v) q = if k = q then some v else lookupA m q := by
  induction m with
  | nil => by_cases h : k = q <;> simp [setA, lookupA, h]
  | cons hd tl ih =>
    obtain ⟨k0, v0⟩ := hd
    by_cases h0 : k0 = k
    · subst h0
      by_cases hq : k0 = q
      · subst hq; simp [setA, lookupA]
      · simp [setA, lookupA, hq]
    · by_cases hq : k0 = q
      · subst hq
        have hkq : ¬ k = k0 := fun h => h0 h.symm
        simp [setA, lookupA, h0, hkq]
      · simp [setA, lookupA, h0, hq, ih]

theorem lookupA_eq_none_of_not_mem {α : Type} {m : AList α} {k : String}
    (h : k ∉ keysA m) : lookupA m k = none := by
  induction m with
  | nil => rfl
  | cons hd tl ih =>
    obtain ⟨k0, v0⟩ := hd
    rw [keysA_cons] at h
    simp only [List.mem_cons, not_or] at h
    have hne : ¬ k0 = k := fun he => h.1 he.symm
    simp [lookupA, hne, ih h.2]

theorem lookupA_mem {α : Type} {m : AList α} {k : String} {v : α}
    (h : lookupA m k = some v) : (k, v) ∈ m := by
  induction m with
  | nil => exact absurd h (by simp [lookupA])
  | cons hd tl ih =>
    obtain ⟨k0, v0⟩ := hd
    by_cases h0 : k0 = k
    · subst h0
      simp only [lookupA, if_pos rfl] at h
      injection h with hv
      subst hv
      exact List.mem_cons_self _ _
    · simp only [lookupA, if_neg h0] at h
      exact List.mem_cons_of_mem _ (ih h)

theorem mem_keysA_iff_lookupA {α : Type} {m : AList α} {k : String} :
    k ∈ keysA m ↔ (lookupA m k).isSome := by
  induction m with
  | nil => simp [lookupA]
  | cons hd tl ih =>
    obtain ⟨k0, v0⟩ := hd
    by_cases h0 : k0 = k
    · subst h0; simp [lookupA]
    · have h0s : ¬ k = k0 := fun he => h0 he.symm
      simp [lookupA, h0, h0s, ih]

theorem mem_keysA_setA {α : Type} {m : AList α} {k q : String} {v : α} :
    q ∈ keysA (setA m k v) ↔ q ∈ keysA m ∨ q = k := by
  rw [mem_keysA_iff_lookupA, mem_keysA_iff_lookupA, lookupA_setA]
  by_cases h : k = q
  · subst h; simp
  · have hs : ¬ q = k := fun he => h he.symm
    simp [h, hs]

theorem keysA_setA_nodup {α : Type} {m : AList α} {k : String} {v : α}
    (h : (keysA m).Nodup) : (keysA (setA m k v)).Nodup := by
  induction m with
  | nil => simp [setA]
  | cons hd tl ih =>
    obtain ⟨k0, v0⟩ := hd
    rw [keysA_cons, List.nodup_cons] at h
    by_cases h0 : k0 = k
    · subst h0
      simp only [setA, eq_self_iff_true, if_true, keysA_cons, List.nodup_cons]
      exact h
    · simp only [setA, if_neg h0, keysA_cons, List.nodup_cons]
      refine ⟨fun hmem => ?_, ih h.2⟩
      rcases mem_keysA_setA.mp hmem with hm | hm
      · exact h.1 hm
      · exact h0 hm

theorem lookupA_eraseA_ne {α : Type} {m : AList α} {k q : String}
    (h : q ≠ k) : lookupA (eraseA m k) q = lookupA m q := by
  induction m with
  | nil => rfl
  | cons hd tl ih =>
    obtain ⟨k0, v0⟩ := hd
    by_cases h0 : k0 = k
    · subst h0
      have hq : ¬ k0 = q := fun he => h he.symm
      simp [eraseA, lookupA, hq]
    · simp [eraseA, lookupA, h0, ih]

theorem lookupA_eraseA_self {α : Type} {m : AList α} {k : String}
    (h : (keysA m).Nodup) : lookupA (eraseA m k) k = none := by
  induction m with
  | nil => rfl
  | cons hd tl ih =>
    obtain ⟨k0, v0⟩ := hd
    rw [keysA_cons, List.nodup_cons] at h
    by_cases h0 : k0 = k
    · subst h0
      simp only [eraseA, if_pos rfl]
      exact lookupA_eq_none_of_not_mem h.1
    · simp [eraseA, lookupA, h0, ih h.2]

theorem keysA_eraseA_sublist {α : Type} (m : AList α) (k : String) :
    (keysA (eraseA m k)).Sublist (keysA m) := by
  induction m with
  | nil => simp [eraseA]
  | cons hd tl ih =>
    obtain ⟨k0, v0⟩ := hd
    by_cases h0 : k0 = k
    · subst h0
      simp only [eraseA, if_pos rfl, keysA_cons]
      exact List.Sublist.cons _ (List.Sublist.refl _)
    · simp only [eraseA, if_neg h0, keysA_cons]
      exact List.Sublist.cons₂ _ ih

theorem keysA_eraseA_nodup {α : Type} {m : AList α} {k : String}
    (h : (keysA m).Nodup) : (keysA (eraseA m k)).Nodup :=
  h.sublist (keysA_eraseA_sublist m k)

theorem keysA_mapValuesA {α β : Type} (f : α → β) (m : AList α) :
    keysA (mapValuesA f m) = keysA m := by
  induction m with
  | nil => rfl
  | cons hd tl ih =>
    obtain ⟨k0, v0⟩ := hd
    simpa [mapValuesA] using ih

theorem lookupA_mapValuesA {α β : Type} (f : α → β) (m : AList α) (k : String) :
    lookupA (mapValuesA f m) k = (lookupA m k).map f := by
  induction m with
  | nil => rfl
  | cons hd tl ih =>
    obtain ⟨k0, v0⟩ := hd
    by_cases h0 : k0 = k
    · subst h0; simp [mapValuesA, lookupA]
    · simpa [mapValuesA, lookupA, h0] using ih

/-! ### Typed-cells invariant -/

/-- Whether a value inhabits a column type: text columns hold strings,
number columns hold numbers. -/
def tyMatches : Ty → Value → Bool
  | .text, .str _ => true
  | .number, .num _ => true
  | _, _ => false

/-- The typed-cells invariant on a cells map and a columns map: row
keys and per-row column keys are duplicate-free, and every stored cell
value lies under a declared column whose type it inhabits. -/
def cellsWTOn (cs : AList (AList Value)) (cols : AList Ty) : Prop :=
  (keysA cs).Nodup ∧
  (∀ r row, lookupA cs r = some row → (keysA row).Nodup) ∧
  (∀ r row c v, lookupA cs r = some row → lookupA row c = some v →
    ∃ ty, lookupA cols c = some ty ∧ tyMatches ty v = true)

/-- The typed-cells invariant of a table. -/
def CellsWT (t : Table) : Prop :=
  cellsWTOn t.cells t.columns

theorem coerce_isSome_of_matches {ty : Ty} {v : Value}
    (h : tyMatches ty v = true) : (Ty.coerce ty (some v)).isSome = true := by
  cases ty <;> cases v <;> simp_all [Ty.coerce, tyMatches, parseFloatV]

theorem coerce_number_fixed {v : Value}
    (h : tyMatches Ty.number v = true) :
    Ty.coerce Ty.number (some v) = some v := by
  cases v <;> simp_all [Ty.coerce, tyMatches, parseFloatV]

theorem coerce_matches {ty : Ty} {ov : Option Value} {w : Value}
    (h : Ty.coerce ty ov = some w) : tyMatches ty w = true := by
  cases ov with
  | none => simp [Ty.coerce] at h
  | some v =>
    cases ty with
    | text =>
      simp only [Ty.coerce] at h
      injection h with h
      subst h
      rfl
    | number =>
      simp only [Ty.coerce] at h
      cases hp : parseFloatV v with
      | none => rw [hp] at h; simp at h
      | some n =>
        rw [hp] at h
        have hw : Value.num n = w := by simpa using h
        subst hw
        rfl

theorem cellsWTOn_setRow_empty {cs : AList (AList Value)} {cols : AList Ty}
    {r : String} (h : cellsWTOn cs cols) : cellsWTOn (setA cs r []) cols := by
  obtain ⟨hnd, hrnd, hty⟩ := h
  refine ⟨keysA_setA_nodup hnd, ?_, ?_⟩
  · intro r0 row hrow
    rw [lookupA_setA] at hrow
    by_cases hr : r = r0
    · rw [if_pos hr] at hrow
      injection hrow with hrow
      subst hrow
      exact List.nodup_nil
    · rw [if_neg hr] at hrow
      exact hrnd r0 row hrow
  · intro r0 row c v hrow hcell
    rw [lookupA_setA] at hrow
    by_cases hr : r = r0
    · rw [if_pos hr] at hrow
      injection hrow with hrow
      subst hrow
      exact absurd hcell (by simp [lookupA])
    · rw [if_neg hr] at hrow
      exact hty r0 row c v hrow hcell

theorem cellsWTOn_eraseRow {cs : AList (AList Value)} {cols : AList Ty}
    {r : String} (h : cellsWTOn cs cols) : cellsWTOn (eraseA cs r) cols := by
  obtain ⟨hnd, hrnd, hty⟩ := h
  refine ⟨keysA_eraseA_nodup hnd, ?_, ?_⟩
  · intro r0 row hrow
    by_cases hr : r0 = r
    · subst hr
      rw [lookupA_eraseA_self hnd] at hrow
      exact absurd hrow (by simp)
    · rw [lookupA_eraseA_ne hr] at hrow
      exact hrnd r0 row hrow
  · intro r0 row c v hrow hcell
    by_cases hr : r0 = r
    · subst hr
      rw [lookupA_eraseA_self hnd] at hrow
      exact absurd hrow (by simp)
    · rw [lookupA_eraseA_ne hr] at hrow
      exact hty r0 row c v hrow hcell

theorem cellsWTOn_createColumn {cs : AList (AList Value)} {cols : AList Ty}
    {c : String} {ty : Ty} (h : cellsWTOn cs cols)
    (hfresh : lookupA cols c = none) : cellsWTOn cs (setA cols c ty) := by
  obtain ⟨hnd, hrnd, hty⟩ := h
  refine ⟨hnd, hrnd, ?_⟩
  intro r0 row c0 v hrow hcell
  obtain ⟨ty0, hc0, hm⟩ := hty r0 row c0 v hrow hcell
  refine ⟨ty0, ?_, hm⟩
  rw [lookupA_setA]
  by_cases hc : c = c0
  · subst hc
    rw [hfresh] at hc0
    exact absurd hc0 (by simp)
  · rw [if_neg hc]
    exact hc0

theorem cellsWTOn_destroyColumn {cs : AList (AList Value)} {cols : AList Ty}
    {c : String} (h : cellsWTOn cs cols) :
    cellsWTOn (mapValuesA (fun row => eraseA row c) cs) (eraseA cols c) := by
  obtain ⟨hnd, hrnd, hty⟩ := h
  refine ⟨by rw [keysA_mapValuesA]; exact hnd, ?_, ?_⟩
  · intro r0 row1 hrow1
    rw [lookupA_mapValuesA] at hrow1
    cases hrow : lookupA cs r0 with
    | none => rw [hrow] at hrow1; exact absurd hrow1 (by simp)
    | some row =>
      rw [hrow] at hrow1
      have : eraseA row c = row1 := by simpa using hrow1
      subst this
      exact keysA_eraseA_nodup (hrnd r0 row hrow)
  · intro r0 row1 c0 v hrow1 hcell
    rw [lookupA_mapValuesA] at hrow1
    cases hrow : lookupA cs r0 with
    | none => rw [hrow] at hrow1; exact absurd hrow1 (by simp)
    | some row =>
      rw [hrow] at hrow1
      have hrr : eraseA row c = row1 := by simpa using hrow1
      subst hrr
      by_cases hc : c0 = c
      · subst hc
        rw [lookupA_eraseA_self (hrnd r0 row hrow)] at hcell
        exact absurd hcell (by simp)
      · rw [lookupA_eraseA_ne hc] at hcell
        obtain ⟨ty0, hc0, hm⟩ := hty r0 row c0 v hrow hcell
        exact ⟨ty0, by rw [lookupA_eraseA_ne hc]; exact hc0, hm⟩

theorem cellsWTOn_updateColumnType {cs : AList (AList Value)} {cols : AList Ty}
    {c : String} {ty : Ty} (h : cellsWTOn cs cols)
    (hall : ∀ rc ∈ cs, (ty.coerce (lookupA rc.2 c)).isSome = true) :
    cellsWTOn
      (mapValuesA
        (fun row =>
          match ty.coerce (lookupA row c) with
          | some v => setA row c v
          | none => row)
        cs)
      (setA cols c ty) := by
  obtain ⟨hnd, hrnd, hty⟩ := h
  refine ⟨by rw [keysA_mapValuesA]; exact hnd, ?_, ?_⟩
  · intro r0 row1 hrow1
    rw [lookupA_mapValuesA] at hrow1
    cases hrow : lookupA cs r0 with
    | none => rw [hrow] at hrow1; exact absurd hrow1 (by simp)
    | some row =>
      rw [hrow] at hrow1
      simp only [Option.map] at hrow1
      injection hrow1 with hrow1
      subst hrow1
      cases hco : ty.coerce (lookupA row c) with
      | none => simp only [hco]; exact hrnd r0 row hrow
      | some w => simp only [hco]; exact keysA_setA_nodup (hrnd r0 row hrow)
  · intro r0 row1 c0 v hrow1 hcell
    rw [lookupA_mapValuesA] at hrow1
    cases hrow : lookupA cs r0 with
    | none => rw [hrow] at hrow1; exact absurd hrow1 (by simp)
    | some row =>
      rw [hrow] at hrow1
      simp only [Option.map] at hrow1
      injection hrow1 with hrow1
      subst hrow1
      cases hco : ty.coerce (lookupA row c) with
      | none =>
        exact absurd (hco ▸ hall (r0, row) (lookupA_mem hrow)) (by simp)
      | some w =>
        rw [hco] at hcell
        rw [lookupA_setA] at hcell
        by_cases hc : c = c0
        · subst hc
          rw [if_pos rfl] at hcell
          injection hcell with hcell
          subst hcell
          exact ⟨ty, by rw [lookupA_setA, if_pos rfl], coerce_matches hco⟩
        · rw [if_neg hc] at hcell
          obtain ⟨ty0, hc0, hm⟩ := hty r0 row c0 v hrow hcell
          refine ⟨ty0, ?_, hm⟩
          rw [lookupA_setA, if_neg hc]
          exact hc0

theorem cellsWTOn_setCell {cs : AList (AList Value)} {cols : AList Ty}
    {rowID colID : String} {row : AList Value} {ty : Ty} {v : Value}
    (h : cellsWTOn cs cols)
    (hrow : lookupA cs rowID = some row)
    (hcol : lookupA cols colID = some ty)
    (hm : tyMatches ty v = true) :
    cellsWTOn (setA cs rowID (setA row colID v)) cols := by
  obtain ⟨hnd, hrnd, hty⟩ := h
  refine ⟨keysA_setA_nodup hnd, ?_, ?_⟩
  · intro r0 row1 hrow1
    rw [lookupA_setA] at hrow1
    by_cases hr : rowID = r0
    · rw [if_pos hr] at hrow1
      injection hrow1 with hrow1
      subst hrow1
      exact keysA_setA_nodup (hrnd rowID row hrow)
    · rw [if_neg hr] at hrow1
      exact hrnd r0 row1 hrow1
  · intro r0 row1 c0 w hrow1 hcell
    rw [lookupA_setA] at hrow1
    by_cases hr : rowID = r0
    · rw [if_pos hr] at hrow1
      injection hrow1 with hrow1
      subst hrow1
      rw [lookupA_setA] at hcell
      by_cases hc : colID = c0
      · subst hc
        rw [if_pos rfl] at hcell
        injection hcell with hcell
        subst hcell
        exact ⟨ty, hcol, hm⟩
      · rw [if_neg hc] at hcell
        exact hty r0 row c0 w (hr ▸ hrow) hcell
    · rw [if_neg hr] at hrow1
      exact hty r0 row1 c0 w hrow1 hcell

theorem some_triple_eq {b b' : Bool} {t t' : Table} {u u' : TableUpdate}
    (h : (some (b, t, u) : Option (Bool × Table × TableUpdate)) = some (b', t', u')) :
    b = b' ∧ t = t' ∧ u = u' := by
  injection h with h
  injection h with h1 h2
  injection h2 with h2 h3
  exact ⟨h1, h2, h3⟩

/-- A successful or failing `apply` preserves the typed-cells
invariant. -/
theorem apply_preserves_CellsWT {u : TableUpdate} {t : Table} {b : Bool}
    {t1 : Table} {u1 : TableUpdate}
    (hwt : CellsWT t) (h : u.apply t = some (b, t1, u1)) : CellsWT t1 := by
  cases u with
  | createRow rowID =>
    simp only [TableUpdate.apply] at h
    split at h
    · obtain ⟨_, ht, _⟩ := some_triple_eq h
      subst ht; exact hwt
    · obtain ⟨_, ht, _⟩ := some_triple_eq h
      subst ht; exact cellsWTOn_setRow_empty hwt
  | destroyRow rowID index =>
    simp only [TableUpdate.apply] at h
    split at h
    · obtain ⟨_, ht, _⟩ := some_triple_eq h
      subst ht; exact hwt
    · obtain ⟨_, ht, _⟩ := some_triple_eq h
      subst ht; exact cellsWTOn_eraseRow hwt
  | moveRow rowID targetIndex start =>
    simp only [TableUpdate.apply] at h
    split at h
    · obtain ⟨_, ht, _⟩ := some_triple_eq h
      subst ht; exact hwt
    · split at h
      · exact absurd h (by simp)
      · obtain ⟨_, ht, _⟩ := some_triple_eq h
        subst ht; exact hwt
  | createColumn colID columnType =>
    simp only [TableUpdate.apply] at h
    split at h
    · obtain ⟨_, ht, _⟩ := some_triple_eq h
      subst ht; exact hwt
    · rename_i hguard
      obtain ⟨_, ht, _⟩ := some_triple_eq h
      subst ht
      refine cellsWTOn_createColumn hwt ?_
      have : ¬ (lookupA t.columns colID).isSome = true := by
        simpa [hasA] using hguard
      exact Option.not_isSome_iff_eq_none.mp this
  | destroyColumn colID =>
    simp only [TableUpdate.apply] at h
    split at h
    · obtain ⟨_, ht, _⟩ := some_triple_eq h
      subst ht; exact cellsWTOn_destroyColumn hwt
    · obtain ⟨_, ht, _⟩ := some_triple_eq h
      subst ht; exact hwt
  | updateColumnType colID columnType =>
    simp only [TableUpdate.apply] at h
    split at h
    · split at h
      · rename_i hall
        obtain ⟨_, ht, _⟩ := some_triple_eq h
        subst ht
        refine cellsWTOn_updateColumnType hwt ?_
        intro rc hrc
        exact List.all_eq_true.mp hall rc hrc
      · obtain ⟨_, ht, _⟩ := some_triple_eq h
        subst ht; exact hwt
    · obtain ⟨_, ht, _⟩ := some_triple_eq h
      subst ht; exact hwt
  | updateTextCellValue rowID colID cellValue =>
    simp only [TableUpdate.apply] at h
    split at h
    · obtain ⟨_, ht, _⟩ := some_triple_eq h
      subst ht; exact hwt
    · rename_i ty hcol
      split at h
      · obtain ⟨_, ht, _⟩ := some_triple_eq h
        subst ht; exact hwt
      · split at h
        · rename_i hty0
          split at h
          · exact absurd h (by simp)
          · rename_i row hrowl
            obtain ⟨_, ht, _⟩ := some_triple_eq h
            subst ht
            subst hty0
            exact cellsWTOn_setCell hwt hrowl hcol rfl
        · obtain ⟨_, ht, _⟩ := some_triple_eq h
          subst ht; exact hwt
  | updateNumberCellValue rowID colID cellValue =>
    simp only [TableUpdate.apply] at h
    split at h
    · obtain ⟨_, ht, _⟩ := some_triple_eq h
      subst ht; exact hwt
    · rename_i ty hcol
      split at h
      · obtain ⟨_, ht, _⟩ := some_triple_eq h
        subst ht; exact hwt
      · split at h
        · rename_i hty0
          split at h
          · exact absurd h (by simp)
          · rename_i row hrowl
            obtain ⟨_, ht, _⟩ := some_triple_eq h
            subst ht
            subst hty0
            exact cellsWTOn_setCell hwt hrowl hcol rfl
        · obtain ⟨_, ht, _⟩ := some_triple_eq h
          subst ht; exact hwt

/-- Any `apply` returning `false` leaves the table it returns equal to
the table it was given (every failing branch returns before mutating). -/
theorem apply_false_eq {u : TableUpdate} {t t1 : Table} {u1 : TableUpdate}
    (h : u.apply t = some (false, t1, u1)) : t1 = t := by
  cases u <;> simp only [TableUpdate.apply] at h <;>
    (repeat' split at h) <;> simp_all

/-- C4: for every one of the eight update variants and every table, if
`apply` returns `false` then the table is unchanged — its serialization
after the call is identical to its serialization before it. -/
theorem apply_false_table_unchanged
    (u : TableUpdate) (t t1 : Table) (u1 : TableUpdate)
    (h : u.apply t = some (false, t1, u1)) :
    t1.serialize = t.serialize := by
  rw [apply_false_eq h]

/-- A table with one row `A`, for exercising a failing `CreateRow`. -/
def c4table : Table := ⟨[("A", [])], [], [("A", 0)], ["A"]⟩

/-- Witness for C4: creating the already-present row `A` fails and the
serialization is unchanged. -/
theorem apply_false_table_unchanged_witness :
    TableUpdate.apply (.createRow "A") c4table = some (false, c4table, .createRow "A") ∧
    Table.serialize c4table = Table.serialize c4table :=
  ⟨by decide,
   apply_false_table_unchanged (.createRow "A") c4table c4table (.createRow "A")
     (by decide)⟩

theorem some_pair_eq {s s' : ServerState} {e e' : List Event}
    (h : (some (s, e) : Option (ServerState × List Event)) = some (s', e')) :
    s = s' ∧ e = e' := by
  injection h with h
  injection h with h1 h2
  exact ⟨h1, h2⟩

/-- One pass of the processing loop preserves the typed-cells
invariant (the table only changes through `apply`). -/
theorem processOne_preserves_CellsWT {s : ServerState} {m : Msg}
    {s1 : ServerState} {evs : List Event}
    (hwt : CellsWT s.table) (h : processOne s m = some (s1, evs)) :
    CellsWT s1.table := by
  unfold processOne at h
  split at h
  · obtain ⟨hs, _⟩ := some_pair_eq h
    subst hs; exact hwt
  · split at h
    · exact absurd h (by simp)
    · split at h
      · exact absurd h (by simp)
      · rename_i u hu success table1 u1 happ
        split at h
        · obtain ⟨hs, _⟩ := some_pair_eq h
          subst hs
          exact apply_preserves_CellsWT hwt happ
        · obtain ⟨hs, _⟩ := some_pair_eq h
          subst hs
          exact apply_preserves_CellsWT hwt happ

/-- Draining the queue preserves the typed-cells invariant. -/
theorem processMsgs_preserves_CellsWT {ms : List Msg} {s : ServerState}
    {s1 : ServerState} {evs : List Event}
    (hwt : CellsWT s.table) (h : processMsgs s ms = some (s1, evs)) :
    CellsWT s1.table := by
  induction ms generalizing s evs with
  | nil =>
    simp only [processMsgs] at h
    obtain ⟨hs, _⟩ := some_pair_eq h
    subst hs; exact hwt
  | cons m rest ih =>
    simp only [processMsgs] at h
    split at h
    · exact absurd h (by simp)
    · rename_i s2 evs2 h2
      split at h
      · exact absurd h (by simp)
      · rename_i s3 evs3 h3
        obtain ⟨hs, _⟩ := some_pair_eq h
        subst hs
        exact ih (processOne_preserves_CellsWT hwt h2) h3

/-- The empty table satisfies the typed-cells invariant. -/
theorem cellsWT_empty : CellsWT Table.empty := by
  refine ⟨List.nodup_nil, ?_, ?_⟩
  · intro r row hrow
    exact absurd hrow (by simp [Table.empty, lookupA])
  · intro r row c v hrow hcell
    exact absurd hrow (by simp [Table.empty, lookupA])

/-- C6 (amended): after every coordinator process pass from the
initial state, every stored cell value inhabits its column's declared
type, so its coercion under the column type is defined; for `Number`
columns the coercion moreover equals the stored value.  (For `Text`
columns the coercion JSON-stringifies and need not equal the stored
value, so stored values are not in general fixed points.) -/
theorem process_cells_well_typed (ms : List Msg) (s1 : ServerState)
    (evs : List Event) (h : processMsgs serverInit ms = some (s1, evs)) :
    ∀ r row c v, lookupA s1.table.cells r = some row → lookupA row c = some v →
      ∃ ty, lookupA s1.table.columns c = some ty ∧
        (Ty.coerce ty (some v)).isSome = true ∧
        (ty = Ty.number → Ty.coerce ty (some v) = some v) := by
  have hwt : CellsWT s1.table := processMsgs_preserves_CellsWT cellsWT_empty h
  intro r row c v hrow hcell
  obtain ⟨ty, hc, hm⟩ := hwt.2.2 r row c v hrow hcell
  refine ⟨ty, hc, coerce_isSome_of_matches hm, fun hn => ?_⟩
  subst hn
  exact coerce_number_fixed hm

/-- Messages that create a row `r`, a text column `c`, and store the
number value 7 under a number column — a run for the C6 witness. -/
def c6wMsgs : List Msg :=
  [⟨0, "g1", .createRow "r", "w1"⟩,
   ⟨1, "g2", .createColumn "c" Ty.number, "w2"⟩,
   ⟨2, "g3", .updateNumberCellValue "r" "c" 7, "w3"⟩]

/-- The state and broadcasts produced by the witness run. -/
def c6wRun : ServerState × List Event :=
  (processMsgs serverInit c6wMsgs).getD (serverInit, [])

/-- Witness for the amended C6: the number 7 stored under the number
column of the concrete run is a fixed point of the coercion. -/
theorem process_cells_well_typed_witness :
    Ty.coerce Ty.number (some (Value.num 7)) = some (Value.num 7) := by
  obtain ⟨ty, hc, hs, hfix⟩ :=
    process_cells_well_typed c6wMsgs c6wRun.1 c6wRun.2 (by decide)
      "r" [("c", Value.num 7)] "c" (Value.num 7) (by decide) (by decide)
  have hty : ty = Ty.number := by
    have h2 : lookupA c6wRun.1.table.columns "c" = some Ty.number := by decide
    exact (Option.some.inj (h2.symm.trans hc)).symm
  exact hty ▸ hfix hty

/-- Messages that create a row `r`, a text column `c`, and store the
raw text `foo` — the C6 counterexample run. -/
def c6msgs : List Msg :=
  [⟨0, "g1", .createRow "r", "m1"⟩,
   ⟨1, "g2", .createColumn "c" Ty.text, "m2"⟩,
   ⟨2, "g3", .updateTextCellValue "r" "c" "foo", "m3"⟩]

/-- C6 counterexample: after the run above the authoritative table
stores the raw string `foo` under text column `c`, but the text
coercion JSON-stringifies (adding quotes), so the coercion of the
stored value is defined yet differs from the stored value. -/
theorem text_cell_not_coerce_fixed_point :
    ((processMsgs serverInit c6msgs).map (fun p => lookupA p.1.table.cells "r"))
      = some (some [("c", Value.str "foo")]) ∧
    ((processMsgs serverInit c6msgs).map (fun p => lookupA p.1.table.columns "c"))
      = some (some Ty.text) ∧
    Ty.coerce Ty.text (some (Value.str "foo")) = some (Value.str "\"foo\"") ∧
    Ty.coerce Ty.text (some (Value.str "foo")) ≠ some (Value.str "foo") := by
  exact ⟨by decide, by decide, by decide, by decide⟩

/-- C7: whenever the coordinator rejects a message — its group had not
already failed, the transform phase produced an update, and `apply`
returned `false` — the whole output of the pass is the single
`rejected(messageID, groupID)` broadcast, `Server.reject` delivers it
to every connected client, and the delivery (the handler is modelled
from the spec as a no-op, and is total, hence non-fatal) leaves every
client — mirror, outbox, version, group, online flag — unchanged. -/
theorem reject_broadcast_no_client_change
    (s : ServerState) (m : Msg) (u : TableUpdate) (t1 : Table) (u1 : TableUpdate)
    (clients : List ClientState)
    (hg : m.groupID ∉ s.failed)
    (hu : transformPhase s m = some u)
    (ha : u.apply s.table = some (false, t1, u1)) :
    processOne s m =
      some ({ s with table := t1, failed := addFailed s.failed m.groupID },
            [Event.rejected m.UUID m.groupID]) ∧
    rejectBroadcast clients m.UUID m.groupID = clients := by
  constructor
  · unfold processOne
    rw [if_neg hg, hu]
    simp [ha]
  · simp [rejectBroadcast, clientRejected]

/-- Witness for C7: destroying a missing row on the fresh server is
rejected and the broadcast leaves a concrete client unchanged. -/
theorem reject_broadcast_no_client_change_witness :
    processOne serverInit ⟨0, "g", .destroyRow "x" (-1), "m1"⟩ =
      some ({ serverInit with table := Table.empty, failed := addFailed [] "g" },
            [Event.rejected "m1" "g"]) ∧
    rejectBroadcast [clientInit Table.empty 0 true] "m1" "g" =
      [clientInit Table.empty 0 true] :=
  reject_broadcast_no_client_change serverInit ⟨0, "g", .destroyRow "x" (-1), "m1"⟩
    (.destroyRow "x" (-1)) Table.empty (.destroyRow "x" (-1))
    [clientInit Table.empty 0 true] (by decide) (by decide) (by decide)

/-- A single processing pass only ever grows the failed-group set. -/
theorem processOne_failed_mono {s : ServerState} {m : Msg} {s1 : ServerState}
    {evs : List Event} (h : processOne s m = some (s1, evs)) :
    ∀ g, g ∈ s.failed → g ∈ s1.failed := by
  unfold processOne at h
  split at h
  · obtain ⟨hs, _⟩ := some_pair_eq h
    subst hs; exact fun g hg => hg
  · split at h
    · exact absurd h (by simp)
    · split at h
      · exact absurd h (by simp)
      · rename_i u hu success table1 u1 happ
        split at h
        · obtain ⟨hs, _⟩ := some_pair_eq h
          subst hs; exact fun g hg => hg
        · obtain ⟨hs, _⟩ := some_pair_eq h
          subst hs
          intro g hg
          show g ∈ addFailed s.failed m.groupID
          unfold addFailed
          split
          · exact hg
          · exact List.mem_append_left _ hg

/-- Draining the queue only ever grows the failed-group set. -/
theorem processMsgs_failed_mono {ms : List Msg} {s s1 : ServerState}
    {evs : List Event} (h : processMsgs s ms = some (s1, evs)) :
    ∀ g, g ∈ s.failed → g ∈ s1.failed := by
  induction ms generalizing s evs with
  | nil =>
    simp only [processMsgs] at h
    obtain ⟨hs, _⟩ := some_pair_eq h
    subst hs; exact fun g hg => hg
  | cons m rest ih =>
    simp only [processMsgs] at h
    split at h
    · exact absurd h (by simp)
    · rename_i s2 evs2 h2
      split at h
      · exact absurd h (by simp)
      · rename_i s3 evs3 h3
        obtain ⟨hs, _⟩ := some_pair_eq h
        subst hs
        exact fun g hg => ih h3 g (processOne_failed_mono h2 g hg)

/-- C8: a message whose group is already in the failed set is dropped
with no transform, no apply, no version advance and no broadcast (the
pass returns the state unchanged with no events), and the failed set
is monotone — after any further drain the group is still failed. -/
theorem failed_group_monotone_and_dropped
    (s : ServerState) (m : Msg) (ms : List Msg) (s1 : ServerState)
    (evs : List Event)
    (hg : m.groupID ∈ s.failed)
    (h : processMsgs s ms = some (s1, evs)) :
    processOne s m = some (s, []) ∧ m.groupID ∈ s1.failed := by
  refine ⟨?_, processMsgs_failed_mono h m.groupID hg⟩
  unfold processOne
  rw [if_pos hg]

/-- A server state whose group `g` has already failed. -/
def c8state : ServerState := ⟨Table.empty, [], ["g"], 0⟩

/-- Witness for C8: a concrete poisoned-group message is dropped, and
after draining another message of the same group, `g` is still
failed. -/
theorem failed_group_monotone_and_dropped_witness :
    processOne c8state ⟨0, "g", .createRow "r", "m1"⟩ = some (c8state, []) ∧
    "g" ∈ (⟨Table.empty, [], ["g"], 0⟩ : ServerState).failed :=
  failed_group_monotone_and_dropped c8state ⟨0, "g", .createRow "r", "m1"⟩
    [⟨0, "g", .createRow "q", "m2"⟩] c8state [] (by decide) (by decide)

/-- The serialized table shape as the spec describes it (this
definition follows the spec wording, for comparison with
`Table.serialize`): a JSON object whose `columns` lists id/type
objects in column insertion order with the type rendered as `text` or
`number`, and whose `rows` lists id/`cellValuesByColumnId` objects in
`rowOrder` order, the body holding exactly the assigned cells of the
row (a row with no assigned cells gets an empty body). -/
def specSerialize (t : Table) : String :=
  "\x7b\"columns\":[" ++
    String.intercalate ","
      (t.columns.map (fun p =>
        "\x7b\"id\":" ++ jsonStr p.1 ++ ",\"type\":" ++ jsonStr p.2.toStr ++ "\x7d")) ++
  "],\"rows\":[" ++
    String.intercalate ","
      (t.order.map (fun r =>
        "\x7b\"id\":" ++ jsonStr r ++ ",\"cellValuesByColumnId\":" ++
          serCellObject ((lookupA t.cells r).getD []) ++ "\x7d")) ++
  "]\x7d"

theorem rowsJSON_eq_map {cells : AList (AList Value)} {l : List String}
    (h : ∀ r ∈ l, (lookupA cells r).isSome = true) :
    rowsJSON cells l =
      some (l.map (fun r => serRowOutput r ((lookupA cells r).getD []))) := by
  induction l with
  | nil => rfl
  | cons r rest ih =>
    have hr := h r (List.mem_cons_self _ _)
    cases hl : lookupA cells r with
    | none => rw [hl] at hr; exact absurd hr (by simp)
    | some row =>
      simp only [rowsJSON, hl]
      rw [ih (fun x hx => h x (List.mem_cons_of_mem _ hx))]
      simp [hl]

/-- C9: on every table whose `order` entries all have a cells entry,
`Table.serialize` produces exactly the JSON shape the spec describes:
`columns` objects in insertion order, `rows` objects in `rowOrder`
order carrying exactly the assigned cells, `\x7b\x7d` for empty rows. -/
theorem serialize_matches_spec_shape (t : Table)
    (h : ∀ r ∈ t.order, (lookupA t.cells r).isSome = true) :
    t.serialize = some (specSerialize t) := by
  unfold Table.serialize specSerialize
  rw [rowsJSON_eq_map h]
  simp [serRowOutput, serColumnOutput]

/-- A concrete two-row table: row `r` has one text cell, row `e` has
none. -/
def c9table : Table :=
  ⟨[("r", [("c", Value.str "v")]), ("e", [])], [("c", Ty.text)],
   [("r", 0), ("e", 1)], ["r", "e"]⟩

/-- Witness for C9: the concrete table serializes to the spec shape,
with the expected literal JSON text. -/
theorem serialize_matches_spec_shape_witness :
    Table.serialize c9table = some (specSerialize c9table) ∧
    specSerialize c9table =
      "\x7b\"columns\":[\x7b\"id\":\"c\",\"type\":\"text\"\x7d],\"rows\":[\x7b\"id\":\"r\",\"cellValuesByColumnId\":\x7b\"c\":\"v\"\x7d\x7d,\x7b\"id\":\"e\",\"cellValuesByColumnId\":\x7b\x7d\x7d]\x7d" :=
  ⟨serialize_matches_spec_shape c9table (by decide), by decide⟩

/-- The client-side invariant: an online client has an empty outbox. -/
def OnlineInv (c : ClientState) : Prop :=
  c.online = true → c.outbox = []

theorem clientSync_outbox (c : ClientState) (t : Table) (v : Nat) :
    (clientSync c t v).outbox = c.outbox := by
  unfold clientSync
  split <;> rfl

theorem clientSync_online (c : ClientState) (t : Table) (v : Nat) :
    (clientSync c t v).online = c.online := by
  unfold clientSync
  split <;> rfl

theorem clientStep_preserves_OnlineInv {c c1 : ClientState} {op : ClientOp}
    (hinv : OnlineInv c) (h : clientStep c op = some c1) : OnlineInv c1 := by
  cases op with
  | comeOnlineOp t v =>
    injection h with h
    subst h
    intro _
    rfl
  | goOfflineOp =>
    injection h with h
    subst h
    intro hon
    exact Bool.noConfusion hon
  | issueOp u uuid =>
    injection h with h
    subst h
    by_cases hon : c.online = true
    · rw [if_pos hon]
      exact hinv
    · rw [if_neg hon]
      intro hon1
      exact absurd hon1 hon
  | syncOp t v =>
    injection h with h
    subst h
    intro hon
    rw [clientSync_online] at hon
    rw [clientSync_outbox]
    exact hinv hon
  | acceptedOp m =>
    simp only [clientStep] at h
    split at h
    · split at h
      · exact absurd h (by simp)
      · injection h with h
        subst h
        intro hon
        exact hinv hon
    · exact absurd h (by simp)
  | rejectedOp mid gid =>
    injection h with h
    subst h
    exact hinv

theorem runClient_preserves_OnlineInv {ops : List ClientOp} {c c1 : ClientState}
    (hinv : OnlineInv c) (h : runClient c ops = some c1) : OnlineInv c1 := by
  induction ops generalizing c with
  | nil =>
    simp only [runClient] at h
    injection h with h
    subst h
    exact hinv
  | cons op rest ih =>
    simp only [runClient] at h
    split at h
    · exact absurd h (by simp)
    · rename_i c2 h2
      exact ih (clientStep_preserves_OnlineInv hinv h2) h

/-- The constructor establishes the invariant: it either starts
offline or immediately drains via `comeOnline`. -/
theorem clientInit_OnlineInv (t : Table) (v : Nat) (b : Bool) :
    OnlineInv (clientInit t v b) := by
  cases b with
  | false => intro hon; exact Bool.noConfusion hon
  | true => intro _; rfl

/-- C10: in every client state reachable from the constructor, an
online client has an empty outbox, and `getData` of an online client
is the serialization of the mirror alone (the outbox is never
consulted). -/
theorem online_client_outbox_empty
    (t0 : Table) (v0 : Nat) (b : Bool) (ops : List ClientOp) (c : ClientState)
    (hrun : runClient (clientInit t0 v0 b) ops = some c)
    (honline : c.online = true) :
    c.outbox = [] ∧ getData c = c.table.serialize := by
  have hinv := runClient_preserves_OnlineInv (clientInit_OnlineInv t0 v0 b) hrun
  refine ⟨hinv honline, ?_⟩
  unfold getData
  rw [if_pos honline]

/-- A concrete client run: go offline, queue an edit, come back
online. -/
def c10ops : List ClientOp :=
  [.goOfflineOp, .issueOp (.createRow "r") "m1", .comeOnlineOp Table.empty 0]

/-- The client state after the concrete run. -/
def c10client : ClientState :=
  (runClient (clientInit Table.empty 0 true) c10ops).getD
    (clientInit Table.empty 0 true)

/-- Witness for C10: after the concrete offline-edit-then-online run,
the online client has an empty outbox and serves its mirror. -/
theorem online_client_outbox_empty_witness :
    c10client.outbox = [] ∧ getData c10client = c10client.table.serialize :=
  online_client_outbox_empty Table.empty 0 true c10ops c10client
    (by decide) (by decide)

/-- C2 (divergence): a context recording `Delete(0)` applied to index
0 returns the index 0, not the tombstone — the `return -1` inside the
source `forEach` callback is discarded, so `transform` never reports a
deleted referent (contradicting its own doc comment). -/
theorem shift_transform_no_tombstone :
    ShiftContext.transform [⟨ShiftType.delete, 0⟩] 0 = 0 ∧
    ShiftContext.transform [⟨ShiftType.delete, 0⟩, ⟨ShiftType.insert, 0⟩] 0 = 1 := by
  exact ⟨by decide, by decide⟩

/-- A two-row table for the out-of-range move. -/
def c3table : Table :=
  ⟨[("A", []), ("B", [])], [], [("A", 0), ("B", 1)], ["A", "B"]⟩

/-- C3 (divergence): moving row `A` of a two-row table to target index
5 — far outside `[0, 0]` of the post-removal sequence — succeeds:
`apply` returns `true` and the splice clamps the insertion to the end,
yielding order `[B, A]` instead of the merge conflict the spec
requires. -/
theorem moveRow_out_of_range_clamps :
    TableUpdate.apply (.moveRow "A" 5 (-1)) c3table =
      some (true,
        ⟨[("A", []), ("B", [])], [], [("B", 0), ("A", 1)], ["B", "A"]⟩,
        .moveRow "A" 5 0) := by
  decide

/-- A table whose only row has no cell under its only column. -/
def c5table : Table := ⟨[("ABC", [])], [("123", Ty.text)], [("ABC", 0)], ["ABC"]⟩

/-- C5 (divergence): retyping column `123` to number fails even though
no row stores a value under it — the source coerces the `undefined`
cell of row `ABC`, `coerce(undefined)` is `undefined`, and `canCoerce`
goes false, so rows without a stored cell are *not* unconstrained. -/
theorem updateColumnType_fails_on_missing_cell :
    TableUpdate.apply (.updateColumnType "123" Ty.number) c5table =
      some (false, c5table, .updateColumnType "123" Ty.number) ∧
    Ty.coerce Ty.number (lookupA ([] : AList Value) "123") = none := by
  exact ⟨by decide, by decide⟩

/-- The four accepted updates preceding the stale move: create rows
`A`, `B`, `C`, destroy `A`. -/
def c1msgs : List Msg :=
  [⟨0, "g1", .createRow "A", "m1"⟩, ⟨1, "g2", .createRow "B", "m2"⟩,
   ⟨2, "g3", .createRow "C", "m3"⟩, ⟨3, "g4", .destroyRow "A" (-1), "m4"⟩,
   ⟨3, "g5", .moveRow "C" 1 (-1), "m5"⟩]

/-- C1 (divergence): `needsTransform` is constantly false (`MoveRow`
never overrides the base), so the stale move with baseline version 3
is applied untransformed and the final order is `[B, C]`; folding the
shift of the single post-baseline update (version 4, the `Delete(0)`
of `DestroyRow A`) as the claim requires would rewrite target 1 to 0
and produce `[C, B]`. -/
theorem server_never_transforms_moveRow :
    TableUpdate.needsTransform (.moveRow "C" 1 (-1)) = false ∧
    (processMsgs serverInit c1msgs).map (fun p => p.1.table.order) =
      some ["B", "C"] ∧
    spliceInsert (spliceRemove ["B", "C"] 1)
      (ShiftContext.transform [⟨ShiftType.delete, 0⟩] 1) "C" = ["C", "B"] := by
  exact ⟨by decide, by decide, by decide⟩

end Sink
